import Mathlib

/-
Formal model of the chunked YouTube-transcription pipeline (transcribe.py).

The program downloads audio for one hard-coded YouTube URL, splits the decoded
audio into fixed-duration chunks, transcribes each chunk through a remote
service with per-chunk failure isolation, joins the results with single
spaces, and caches the final transcript as an indented UTF-8 JSON record.

Modelling conventions:
- Decoded audio (a pydub AudioSegment, sliced by milliseconds) is a `List α`;
  slicing `audio[i:i+D]` is `(audio.drop i).take D`.
- Python strings are `List Char` (Unicode scalar values) or Lean `String`
  (which wraps `List Char`).
- The remote transcription service is an oracle `Nat → Except String String`
  giving the outcome (transcript or raised exception) of the i-th request.
- The filesystem and environment are a `World` record; `main` returns the
  list of observable events plus the process exit status.
- `json.dump(..., ensure_ascii=False, indent=2)` and `json.load` are modelled
  by `dumpRecord` and `parseTranscriptRecord` below; the parser follows the
  JSON string grammar (escapes, \uXXXX with surrogate pairs) restricted to
  flat objects with string values, which is the shape this program stores.
  Lone surrogates (representable in Python, not in Lean `Char`) are rejected.
-/

namespace Transcribe

/-- The brace characters, written via their code points. -/
def lbrace : Char := Char.ofNat 123

/-- The closing brace character. -/
def rbrace : Char := Char.ofNat 125

/-- The persisted transcript record, one JSON file per video id
(`transcripts/<video_id>.json` with keys video_id, video_title, transcript). -/
structure TranscriptRecord where
  video_id : String
  video_title : String
  transcript : String
  deriving DecidableEq

/-- The chunk-partitioning loop of `transcribe_audio_file`:
`for i in range(0, len(audio), chunk_size_ms): chunks.append(audio[i:i+chunk_size_ms])`.
Python `range` with step 0 raises ValueError, so the `chunk_size = 0` case is
never reached by the program (default chunk size is 5*60*1000); it is mapped
to `[]` here. -/
def chunkAudio {α : Type} (chunk_size : Nat) : List α → List (List α)
  | [] => []
  | a :: rest =>
    if h : chunk_size = 0 then []
    else (a :: rest).take chunk_size :: chunkAudio chunk_size ((a :: rest).drop chunk_size)
termination_by l => l.length
decreasing_by
  simp only [List.length_drop, List.length_cons]
  omega

/-- The fixed placeholder appended when transcribing a chunk raises. -/
def placeholder : String := "[Error transcribing this segment]"

/-- The per-chunk loop of `transcribe_audio_file`: chunk `i` is sent to the
service; on success its transcript is appended, on any exception the fixed
placeholder is appended and the loop continues.  The oracle gives the
service's outcome for the i-th request (the chunk's bytes are opaque to the
model). -/
def processChunks {α : Type} (oracle : Nat → Except String String) :
    Nat → List (List α) → List String
  | _, [] => []
  | i, _chunk :: rest =>
    (match oracle i with
     | Except.ok t => t
     | Except.error _ => placeholder) :: processChunks oracle (i + 1) rest

/-- `transcribe_audio_file`: split decoded audio into chunks, transcribe each
with failure isolation, and join the results with " ".join. -/
def transcribe_audio_file {α : Type} (oracle : Nat → Except String String)
    (chunk_size_ms : Nat) (audio : List α) : String :=
  String.intercalate " " (processChunks oracle 0 (chunkAudio chunk_size_ms audio))

/-- JSON lowercase hex digit, as produced by Python's '\u%04x' formatting. -/
def hexDigitChar (n : Nat) : Char :=
  if n < 10 then Char.ofNat (48 + n) else Char.ofNat (87 + n)

/-- Escaping of one character by `json.dump` with `ensure_ascii=False`
(CPython's ESCAPE_DCT): backslash, quote, and the short control escapes get
two-character escapes, other control characters get \u00XX, everything else
(including non-ASCII) passes through unchanged. -/
def escapeChar (c : Char) : List Char :=
  if c = '"' then ['\\', '"']
  else if c = '\\' then ['\\', '\\']
  else if c = '\n' then ['\\', 'n']
  else if c = '\r' then ['\\', 'r']
  else if c = '\t' then ['\\', 't']
  else if c.toNat = 8 then ['\\', 'b']
  else if c.toNat = 12 then ['\\', 'f']
  else if c.toNat < 32 then
    ['\\', 'u', '0', '0', hexDigitChar (c.toNat / 16), hexDigitChar (c.toNat % 16)]
  else [c]

/-- Escaping of a whole string body. -/
def escString (s : List Char) : List Char := (s.map escapeChar).flatten

/-- A JSON string literal: quote, escaped body, quote. -/
def encodeJsonString (s : List Char) : List Char := '"' :: (escString s ++ ['"'])

/-- The exact file text written by `save_transcript`:
`json.dump({"video_id": ..., "video_title": ..., "transcript": ...}, f,
ensure_ascii=False, indent=2)`, i.e. an indented object with item separator
"," and key separator ": ". -/
def dumpRecord (r : TranscriptRecord) : List Char :=
  lbrace :: '\n' :: ' ' :: ' ' ::
    (encodeJsonString "video_id".data ++
      (':' :: ' ' :: (encodeJsonString r.video_id.data ++
        (',' :: '\n' :: ' ' :: ' ' ::
          (encodeJsonString "video_title".data ++
            (':' :: ' ' :: (encodeJsonString r.video_title.data ++
              (',' :: '\n' :: ' ' :: ' ' ::
                (encodeJsonString "transcript".data ++
                  (':' :: ' ' :: (encodeJsonString r.transcript.data ++
                    ('\n' :: rbrace :: []))))))))))))

/-- JSON insignificant whitespace. -/
def isJsonWs (c : Char) : Bool :=
  c = ' ' || c = '\t' || c = '\n' || c = '\r'

/-- Skip leading JSON whitespace. -/
def skipWs : List Char → List Char
  | [] => []
  | c :: rest => if isJsonWs c then skipWs rest else c :: rest

/-- Value of one hex digit (both cases accepted, as in `json.load`). -/
def hexVal (c : Char) : Option Nat :=
  if '0' ≤ c ∧ c ≤ '9' then some (c.toNat - 48)
  else if 'a' ≤ c ∧ c ≤ 'f' then some (c.toNat - 87)
  else if 'A' ≤ c ∧ c ≤ 'F' then some (c.toNat - 55)
  else none

/-- Cons a decoded character onto a string-parse result. -/
def consFst (c : Char) (o : Option (List Char × List Char)) :
    Option (List Char × List Char) :=
  match o with
  | some (s, rest) => some (c :: s, rest)
  | none => none

/-- Decoding of one backslash escape (the input starts right after the
backslash): returns the decoded character and how many input characters the
escape consumed.  \uXXXX handles surrogate pairs as `json.load` does; lone
surrogates are rejected (they have no Lean `Char` counterpart). -/
def decodeEscape : List Char → Option (Char × Nat)
  | '"' :: _ => some ('"', 1)
  | '\\' :: _ => some ('\\', 1)
  | '/' :: _ => some ('/', 1)
  | 'b' :: _ => some (Char.ofNat 8, 1)
  | 'f' :: _ => some (Char.ofNat 12, 1)
  | 'n' :: _ => some ('\n', 1)
  | 'r' :: _ => some ('\r', 1)
  | 't' :: _ => some ('\t', 1)
  | 'u' :: h1 :: h2 :: h3 :: h4 :: r =>
    match hexVal h1, hexVal h2, hexVal h3, hexVal h4 with
    | some a, some b, some c3, some d =>
      let n := ((a * 16 + b) * 16 + c3) * 16 + d
      if n < 55296 ∨ 57343 < n then some (Char.ofNat n, 5)
      else if n < 56320 then
        match r with
        | '\\' :: 'u' :: g1 :: g2 :: g3 :: g4 :: _ =>
          match hexVal g1, hexVal g2, hexVal g3, hexVal g4 with
          | some a2, some b2, some c2, some d2 =>
            let m := ((a2 * 16 + b2) * 16 + c2) * 16 + d2
            if 56320 ≤ m ∧ m ≤ 57343 then
              some (Char.ofNat (65536 + (n - 55296) * 1024 + (m - 56320)), 11)
            else none
          | _, _, _, _ => none
        | _ => none
      else none
    | _, _, _, _ => none
  | _ => none

/-- Fueled scanner for the body of a JSON string after the opening quote, as
in `json.load`: ends at an unescaped quote, decodes backslash escapes via
`decodeEscape`, and rejects raw control characters.  Every step consumes at
least one character, so fuel `input length + 1` always suffices. -/
def parseBodyF : Nat → List Char → Option (List Char × List Char)
  | 0, _ => none
  | _ + 1, [] => none
  | fuel + 1, c :: rest =>
    if c = '"' then some ([], rest)
    else if c = '\\' then
      match decodeEscape rest with
      | some (ch, k) => consFst ch (parseBodyF fuel (rest.drop k))
      | none => none
    else if c.toNat < 32 then none
    else consFst c (parseBodyF fuel rest)

/-- Body of a JSON string after the opening quote. -/
def parseJsonStringBody (s : List Char) : Option (List Char × List Char) :=
  parseBodyF (s.length + 1) s

/-- A JSON string literal: opening quote then body. -/
def parseJsonString (s : List Char) : Option (List Char × List Char) :=
  match s with
  | '"' :: rest => parseJsonStringBody rest
  | _ => none

/-- A JSON value as produced by `json.load`: Python None, bool, number,
str, list, dict.  Numbers keep their source token (the digits as written);
their numeric value is not modelled beyond what truthiness needs.  Object
member lists keep duplicates in source order; lookups take the last
occurrence, as building a Python dict does. -/
inductive JsonValue where
  | null : JsonValue
  | bool : Bool → JsonValue
  | num : List Char → JsonValue
  | str : List Char → JsonValue
  | arr : List JsonValue → JsonValue
  | obj : List (List Char × JsonValue) → JsonValue

/-- Decimal digit test for number tokens. -/
def isDigitChar (c : Char) : Bool := '0' ≤ c && c ≤ '9'

/-- The integer part of a JSON number: `0`, or a nonzero digit followed by
digits (json's NUMBER_RE: leading zeros end the integer part). -/
def parseIntPart : List Char → Option (List Char × List Char)
  | [] => none
  | c :: r =>
    if c = '0' then some (['0'], r)
    else if isDigitChar c then
      some (c :: r.takeWhile isDigitChar, r.dropWhile isDigitChar)
    else none

/-- The optional fraction part `.digits`; not taken when absent or empty
(the regex group simply does not match, as in Python). -/
def parseFracPart (s : List Char) : List Char × List Char :=
  match s with
  | '.' :: r =>
    match r.takeWhile isDigitChar with
    | [] => ([], s)
    | ds => ('.' :: ds, r.dropWhile isDigitChar)
  | _ => ([], s)

/-- The optional exponent part `[eE][+-]?digits`; not taken when it does not
fully match. -/
def parseExpPart (s : List Char) : List Char × List Char :=
  match s with
  | [] => ([], s)
  | e :: r =>
    if e = 'e' ∨ e = 'E' then
      let sr : List Char × List Char :=
        match r with
        | '+' :: rr => (['+'], rr)
        | '-' :: rr => (['-'], rr)
        | _ => ([], r)
      match sr.2.takeWhile isDigitChar with
      | [] => ([], e :: r)
      | ds => (e :: (sr.1 ++ ds), sr.2.dropWhile isDigitChar)
    else ([], e :: r)

/-- A JSON number token per json's NUMBER_RE:
`-? (0 | [1-9][0-9]*) (\.[0-9]+)? ([eE][+-]?[0-9]+)?`. -/
def parseNumberTok (s : List Char) : Option (List Char × List Char) :=
  let sgn : List Char × List Char :=
    match s with
    | '-' :: r => (['-'], r)
    | _ => ([], s)
  match parseIntPart sgn.2 with
  | none => none
  | some (ip, r1) =>
    let fp := parseFracPart r1
    let ep := parseExpPart fp.2
    some (sgn.1 ++ ip ++ fp.1 ++ ep.1, ep.2)

/-- Recognition of a literal keyword (`rue` after 't', etc.): the given
characters must follow, and are consumed. -/
def parseKeyword (kw : List Char) (v : JsonValue) (rest : List Char) :
    Option (JsonValue × List Char) :=
  if kw <+: rest then some (v, rest.drop kw.length) else none

mutual

/-- A JSON value at the current position, as `json.load`'s scanner reads
one: string, object, array, the `true`/`false`/`null` literals, the
`NaN`/`Infinity`/`-Infinity` constants (accepted by Python's decoder), or a
number token.  Fueled: each recursion level consumes at least one input
character per two levels, so `2 * length + 2` always suffices. -/
def parseValueF : Nat → List Char → Option (JsonValue × List Char)
  | 0, _ => none
  | _ + 1, [] => none
  | fuel + 1, c :: rest =>
    if c = '"' then
      match parseJsonStringBody rest with
      | some (str, r2) => some (JsonValue.str str, r2)
      | none => none
    else if c = lbrace then
      match skipWs rest with
      | [] => none
      | c2 :: r2 =>
        if c2 = rbrace then some (JsonValue.obj [], r2)
        else
          match parseMembersF fuel (c2 :: r2) with
          | some (ms, r3) => some (JsonValue.obj ms, r3)
          | none => none
    else if c = '[' then
      match skipWs rest with
      | [] => none
      | c2 :: r2 =>
        if c2 = ']' then some (JsonValue.arr [], r2)
        else
          match parseElemsF fuel (c2 :: r2) with
          | some (vs, r3) => some (JsonValue.arr vs, r3)
          | none => none
    else if c = 't' then parseKeyword ['r', 'u', 'e'] (JsonValue.bool true) rest
    else if c = 'f' then parseKeyword ['a', 'l', 's', 'e'] (JsonValue.bool false) rest
    else if c = 'n' then parseKeyword ['u', 'l', 'l'] JsonValue.null rest
    else if c = 'N' then parseKeyword ['a', 'N'] (JsonValue.num ['N', 'a', 'N']) rest
    else if c = 'I' then parseKeyword "nfinity".data (JsonValue.num "Infinity".data) rest
    else
      match parseNumberTok (c :: rest) with
      | some (tok, r2) => some (JsonValue.num tok, r2)
      | none =>
        if c = '-' then parseKeyword "Infinity".data (JsonValue.num "-Infinity".data) rest
        else none

/-- The members of a JSON object after the opening brace and any leading
whitespace: `"key": value` pairs separated by commas, closed by the brace. -/
def parseMembersF : Nat → List Char → Option (List (List Char × JsonValue) × List Char)
  | 0, _ => none
  | fuel + 1, s =>
    match parseJsonString s with
    | none => none
    | some (k, r1) =>
      match skipWs r1 with
      | [] => none
      | c1 :: r2 =>
        if c1 = ':' then
          match parseValueF fuel (skipWs r2) with
          | none => none
          | some (v, r3) =>
            match skipWs r3 with
            | [] => none
            | c :: r4 =>
              if c = ',' then
                match parseMembersF fuel (skipWs r4) with
                | some (ms, rest) => some ((k, v) :: ms, rest)
                | none => none
              else if c = rbrace then some ([(k, v)], r4)
              else none
        else none

/-- The elements of a JSON array after the opening bracket and any leading
whitespace: values separated by commas, closed by the bracket. -/
def parseElemsF : Nat → List Char → Option (List JsonValue × List Char)
  | 0, _ => none
  | fuel + 1, s =>
    match parseValueF fuel s with
    | none => none
    | some (v, r1) =>
      match skipWs r1 with
      | [] => none
      | c :: r2 =>
        if c = ',' then
          match parseElemsF fuel (skipWs r2) with
          | some (vs, rest) => some (v :: vs, rest)
          | none => none
        else if c = ']' then some ([v], r2)
        else none

end

/-- `json.load`: skip whitespace, read one value, and require only
whitespace to follow (trailing data is a decode error).  `none` models a
raised JSONDecodeError.  Restrictions of the model: lone surrogates in
string escapes are rejected (no Lean `Char` for them), and a number's
truthiness is judged from its written digits, not from float rounding. -/
def parseJson (content : List Char) : Option JsonValue :=
  match parseValueF (2 * content.length + 1 + 1) (skipWs content) with
  | some (v, rest) => if skipWs rest = [] then some v else none
  | none => none

/-- Truthiness of a number token: zero iff every mantissa digit is 0
(sign and exponent do not matter); NaN and Infinity are truthy. -/
def numTruthy (tok : List Char) : Bool :=
  (tok.takeWhile (fun c => c ≠ 'e' ∧ c ≠ 'E')).any (fun c => '1' ≤ c && c ≤ '9') ||
    tok.any (fun c => c = 'N' || c = 'I')

/-- Python truthiness (`if existing_transcript:`) of a loaded JSON value:
None, False, 0, "", [] and {} are falsy, everything else truthy. -/
def jsonTruthy : JsonValue → Bool
  | JsonValue.null => false
  | JsonValue.bool b => b
  | JsonValue.num tok => numTruthy tok
  | JsonValue.str s => !s.isEmpty
  | JsonValue.arr vs => !vs.isEmpty
  | JsonValue.obj ms => !ms.isEmpty

/-- Python dict semantics for duplicate keys: the last occurrence wins. -/
def lookupMember (ms : List (List Char × JsonValue)) (k : List Char) : Option JsonValue :=
  ms.foldl (fun acc p => if p.1 = k then some p.2 else acc) none

/-- The subscript `existing_transcript["transcript"]` in `main`: a dict
yields the value (KeyError when the key is absent), any other truthy value
raises TypeError.  Both exceptions reach the top-level handler. -/
def getItem (v : JsonValue) (k : List Char) : Except String JsonValue :=
  match v with
  | JsonValue.obj ms =>
    match lookupMember ms k with
    | some x => Except.ok x
    | none => Except.error "KeyError"
  | _ => Except.error "TypeError"

/-- Error message carried by a failed cache parse (json.JSONDecodeError). -/
def jsonDecodeErrorMsg : String := "json.decoder.JSONDecodeError"

/-- `get_existing_transcript`: look for `transcripts/<video_id>.json`;
absent means no cached transcript (returns None); present means return
whatever `json.load` yields — any JSON value; a parse failure raises
(propagates out as an exception). -/
def get_existing_transcript (files : String → Option (List Char)) (video_id : String) :
    Except String (Option JsonValue) :=
  match files video_id with
  | none => Except.ok none
  | some content =>
    match parseJson content with
    | some v => Except.ok (some v)
    | none => Except.error jsonDecodeErrorMsg

/-- `save_transcript`: serialize the record `{"video_id": video_id,
"video_title": video_title, "transcript": text}` and overwrite
`transcripts/<video_id>.json` with it. -/
def save_transcript (files : String → Option (List Char)) (text : String)
    (video_id : String) (video_title : String) : String → Option (List Char) :=
  fun id => if id = video_id then some (dumpRecord ⟨video_id, video_title, text⟩) else files id

/-- First occurrence of `sep` in `s`: `some (before, after)` splits `s` as
`before ++ sep ++ after` at the leftmost occurrence, `none` if there is no
occurrence.  This is the scanning step of Python's `str.split(sep)`. -/
def findSplit (sep : List Char) : List Char → Option (List Char × List Char)
  | [] => none
  | c :: cs =>
    if sep <+: (c :: cs) then some ([], (c :: cs).drop sep.length)
    else
      match findSplit sep cs with
      | some (pre, post) => some (c :: pre, post)
      | none => none

/-- Fueled splitting loop for Python's `str.split(sep)` (non-empty `sep`):
repeatedly cut at the leftmost occurrence of `sep`. -/
def pySplitF (sep : List Char) : Nat → List Char → List (List Char)
  | 0, s => [s]
  | fuel + 1, s =>
    match findSplit sep s with
    | none => [s]
    | some (pre, post) => pre :: pySplitF sep fuel post

/-- Python's `s.split(sep)` for non-empty `sep`: the fuel `s.length + 1`
always suffices because each cut consumes at least `sep`. -/
def pySplit (sep s : List Char) : List (List Char) := pySplitF sep (s.length + 1) s

/-- The part of `s` before the first occurrence of `sep` (all of `s` when
there is none); equals `s.split(sep)[0]`. -/
def takeUntilSeq (sep s : List Char) : List Char :=
  match findSplit sep s with
  | none => s
  | some (pre, _) => pre

/-- The video-id extraction expression `url.split("v=")[1].split("&")[0]`
used by both `download_youtube_audio` and `main`.  Indexing `[1]` raises
IndexError when the split produced fewer than two parts (no "v=" in the
url), modelled by `none`; `split("&")[0]` always exists. -/
def pyExtractVideoId (url : String) : Option String :=
  match pySplit ['v', '='] url.data with
  | _ :: second :: _ => some (String.mk ((pySplit ['&'] second).headD []))
  | _ => none

/-- Observable events of one run: calls to the two external services, the
transcript cache write, the transcript printed to stdout, and the top-level
exception line. -/
inductive Event where
  | acquisitionCall : Event
  | transcribeCall : Nat → Event
  | cacheWrite : String → Event
  | output : JsonValue → Event
  | exceptionLog : String → Event

/-- The environment and filesystem a run executes against:
the DEEPGRAM_API_KEY value visible after load_dotenv (None when absent),
the transcript cache files (keyed by video id), which downloaded audio files
exist, the outcome of a yt-dlp download (title, or a raised error), the
decoded audio for a local file path, and the outcome of each transcription
request. -/
structure World where
  apiKey : Option String
  transcriptFiles : String → Option (List Char)
  audioFiles : String → Bool
  downloadResult : String → Except String String
  audioData : String → List Unit
  chunkResult : Nat → Except String String

/-- Message of the ValueError raised when the API key is absent. -/
def keyErrorMsg : String := "DEEPGRAM_API_KEY not found in environment variables"

/-- Message of the IndexError raised by `url.split("v=")[1]` without "v=". -/
def indexErrorMsg : String := "list index out of range"

/-- `download_youtube_audio`: derive the video id, reuse
`downloaded_audio/<id>.mp3` when it exists (title falls back to the id),
otherwise call yt-dlp (an acquisition event) which either returns the title
or raises. -/
def download_youtube_audio (w : World) (url : String) :
    List Event × Except String (String × String) :=
  match pyExtractVideoId url with
  | none => ([], Except.error indexErrorMsg)
  | some vid =>
    let path := "downloaded_audio/" ++ vid ++ ".mp3"
    if w.audioFiles vid then ([], Except.ok (path, vid))
    else
      match w.downloadResult url with
      | Except.ok title => ([Event.acquisitionCall], Except.ok (path, title))
      | Except.error e => ([Event.acquisitionCall], Except.error e)

/-- The chunk duration used by `main`: 5 * 60 * 1000 ms. -/
def chunk_size_default : Nat := 5 * 60 * 1000

/-- The hard-coded YouTube URL in `main`. -/
def youtube_url : String :=
  "https://www.youtube.com/watch?v=OHWnPOKh_S0&pp=ygULbGV4IGZyaWRtYW4%3D"

/-- The cache-miss continuation of `main`: download the audio, transcribe it
chunk by chunk, save the transcript, and print it. -/
def runPipeline (url : String) (vid : String) (w : World) : List Event × Except String Unit :=
  match download_youtube_audio w url with
  | (evs, Except.error e) => (evs, Except.error e)
  | (evs, Except.ok pathTitle) =>
    let audio := w.audioData pathTitle.1
    let chunks := chunkAudio chunk_size_default audio
    let transcript := String.intercalate " " (processChunks w.chunkResult 0 chunks)
    (evs ++ (List.range chunks.length).map Event.transcribeCall ++
      [Event.cacheWrite vid, Event.output (JsonValue.str transcript.data)], Except.ok ())

/-- The body of `main`'s try block, for a given (possibly hard-coded) URL:
check the API key (Python `if not key` treats None and "" alike), extract
the video id, look up the cache.  `if existing_transcript:` then prints the
loaded value's "transcript" item and returns — but only for a truthy value;
None (no file) and falsy loaded JSON such as `\x7b\x7d` fall through to the
full pipeline (download, transcribe, save, print).  Returns the events of
the run and either success or the first raised exception. -/
def mainBody (url : String) (w : World) : List Event × Except String Unit :=
  match w.apiKey with
  | none => ([], Except.error keyErrorMsg)
  | some key =>
    if key = "" then ([], Except.error keyErrorMsg)
    else
      match pyExtractVideoId url with
      | none => ([], Except.error indexErrorMsg)
      | some vid =>
        match get_existing_transcript w.transcriptFiles vid with
        | Except.error e => ([], Except.error e)
        | Except.ok none => runPipeline url vid w
        | Except.ok (some v) =>
          if jsonTruthy v then
            match getItem v "transcript".data with
            | Except.ok tv => ([Event.output tv], Except.ok ())
            | Except.error e => ([], Except.error e)
          else runPipeline url vid w

/-- `main`: the whole body runs inside one try/except which prints
"Exception: {e}" and falls through, so the process always exits with
status 0. -/
def main (url : String) (w : World) : List Event × Nat :=
  match mainBody url w with
  | (evs, Except.ok _) => (evs, 0)
  | (evs, Except.error e) => (evs ++ [Event.exceptionLog ("Exception: " ++ e)], 0)

/-! Helper lemmas about the chunk partition. -/

lemma chunkAudio_nil {α : Type} (D : Nat) : chunkAudio D ([] : List α) = [] := by
  rw [chunkAudio]

lemma chunkAudio_cons {α : Type} (D : Nat) (hD : D ≠ 0) (a : α) (rest : List α) :
    chunkAudio D (a :: rest) =
      (a :: rest).take D :: chunkAudio D ((a :: rest).drop D) := by
  rw [chunkAudio]
  rw [dif_neg hD]

lemma chunkAudio_eq_nil_iff {α : Type} (D : Nat) (hD : D ≠ 0) (l : List α) :
    chunkAudio D l = [] ↔ l = [] := by
  cases l with
  | nil => simp [chunkAudio_nil]
  | cons a rest => simp [chunkAudio_cons D hD]

lemma chunkAudio_flatten {α : Type} (D : Nat) (hD : 0 < D) (audio : List α) :
    (chunkAudio D audio).flatten = audio := by
  have H : ∀ n (l : List α), l.length ≤ n → (chunkAudio D l).flatten = l := by
    intro n
    induction n with
    | zero =>
      intro l hl
      have hnil : l = [] := List.eq_nil_of_length_eq_zero (by omega)
      subst hnil
      simp [chunkAudio_nil]
    | succ n ih =>
      intro l hl
      cases l with
      | nil => simp [chunkAudio_nil]
      | cons a rest =>
        rw [chunkAudio_cons D (by omega) a rest, List.flatten_cons,
          ih ((a :: rest).drop D) (by simp only [List.length_drop, List.length_cons] at *; omega)]
        exact List.take_append_drop D (a :: rest)
  exact H audio.length audio le_rfl

lemma chunkAudio_length {α : Type} (D : Nat) (hD : 0 < D) (audio : List α) :
    (chunkAudio D audio).length = (audio.length + D - 1) / D := by
  have H : ∀ n (l : List α), l.length ≤ n →
      (chunkAudio D l).length = (l.length + D - 1) / D := by
    intro n
    induction n with
    | zero =>
      intro l hl
      have hnil : l = [] := List.eq_nil_of_length_eq_zero (by omega)
      subst hnil
      simp [chunkAudio_nil]
      exact (Nat.div_eq_of_lt (by omega)).symm
    | succ n ih =>
      intro l hl
      cases l with
      | nil =>
        simp [chunkAudio_nil]
        exact (Nat.div_eq_of_lt (by omega)).symm
      | cons a rest =>
        have hd : ((a :: rest).drop D).length ≤ n := by
          simp only [List.length_drop, List.length_cons]
          simp only [List.length_cons] at hl
          omega
        rw [chunkAudio_cons D (by omega) a rest, List.length_cons, ih _ hd]
        simp only [List.length_drop, List.length_cons]
        rcases le_or_lt (rest.length + 1) D with h | h
        · rw [show rest.length + 1 - D + D - 1 = D - 1 by omega, Nat.div_eq_of_lt (by omega),
            show rest.length + 1 + D - 1 = rest.length + D by omega,
            Nat.add_div_right _ hD, Nat.div_eq_of_lt (by omega)]
        · rw [show rest.length + 1 - D + D - 1 = rest.length by omega,
            show rest.length + 1 + D - 1 = rest.length + D by omega,
            Nat.add_div_right _ hD]
  exact H audio.length audio le_rfl

lemma chunkAudio_dropLast_length {α : Type} (D : Nat) (hD : 0 < D) (audio : List α) :
    ∀ c ∈ (chunkAudio D audio).dropLast, c.length = D := by
  have H : ∀ n (l : List α), l.length ≤ n →
      ∀ c ∈ (chunkAudio D l).dropLast, c.length = D := by
    intro n
    induction n with
    | zero =>
      intro l hl
      have hnil : l = [] := List.eq_nil_of_length_eq_zero (by omega)
      subst hnil
      simp [chunkAudio_nil]
    | succ n ih =>
      intro l hl
      cases l with
      | nil => simp [chunkAudio_nil]
      | cons a rest =>
        rw [chunkAudio_cons D (by omega) a rest]
        cases htail : chunkAudio D ((a :: rest).drop D) with
        | nil => simp
        | cons y ys =>
          have hdrop : (a :: rest).drop D ≠ [] := by
            intro hc
            rw [hc, chunkAudio_nil] at htail
            exact List.noConfusion htail
          have hlen : D < (a :: rest).length := by
            by_contra hcon
            exact hdrop (List.drop_eq_nil_of_le (by omega))
          intro c hc
          rw [List.dropLast_cons₂] at hc
          rcases List.mem_cons.mp hc with hc1 | hc2
          · subst hc1
            simp only [List.length_take]
            omega
          · have := ih ((a :: rest).drop D)
              (by simp only [List.length_drop, List.length_cons] at *; omega) c
            rw [htail] at this
            exact this hc2
  exact H audio.length audio le_rfl

lemma chunkAudio_getLast_length {α : Type} (D : Nat) (hD : 0 < D) (audio : List α) :
    ∀ last, (chunkAudio D audio).getLast? = some last →
      last.length = if audio.length % D = 0 then D else audio.length % D := by
  have H : ∀ n (l : List α), l.length ≤ n →
      ∀ last, (chunkAudio D l).getLast? = some last →
        last.length = if l.length % D = 0 then D else l.length % D := by
    intro n
    induction n with
    | zero =>
      intro l hl
      have hnil : l = [] := List.eq_nil_of_length_eq_zero (by omega)
      subst hnil
      simp [chunkAudio_nil]
    | succ n ih =>
      intro l hl
      cases l with
      | nil => simp [chunkAudio_nil]
      | cons a rest =>
        rw [chunkAudio_cons D (by omega) a rest]
        cases htail : chunkAudio D ((a :: rest).drop D) with
        | nil =>
          intro last hlast
          simp only [List.getLast?_singleton, Option.some.injEq] at hlast
          have hdrop : (a :: rest).drop D = [] :=
            (chunkAudio_eq_nil_iff D (by omega) _).mp htail
          have hle : (a :: rest).length ≤ D := by
            have := List.drop_eq_nil_iff.mp hdrop
            simpa using this
          subst hlast
          simp only [List.length_take, List.length_cons] at *
          rcases eq_or_lt_of_le hle with heq | hlt
          · rw [heq]
            simp [Nat.mod_self]
          · rw [Nat.mod_eq_of_lt hlt, if_neg (by omega)]
            omega
        | cons y ys =>
          intro last hlast
          rw [List.getLast?_cons_cons] at hlast
          have hdrop : (a :: rest).drop D ≠ [] := by
            intro hc
            rw [hc, chunkAudio_nil] at htail
            exact List.noConfusion htail
          have hlen : D < (a :: rest).length := by
            by_contra hcon
            exact hdrop (List.drop_eq_nil_of_le (by omega))
          have := ih ((a :: rest).drop D)
            (by simp only [List.length_drop, List.length_cons] at *; omega) last
            (by rw [htail]; exact hlast)
          rw [this]
          simp only [List.length_drop, List.length_cons] at *
          rw [show rest.length + 1 - D = (rest.length + 1) - D from rfl,
            ← Nat.mod_eq_sub_mod (by omega)]
  exact H audio.length audio le_rfl

/-- C1: For every chunk duration D > 0 and decoded audio of length L, the
partitioning loop of `transcribe_audio_file` yields exactly ceil(L/D) chunks,
whose concatenation in order is the original audio (consecutive layout, no
padding, no dropping), every chunk before the last has length D, and the
last chunk has length L mod D (or D when D divides L). -/
theorem chunk_partition_spec {α : Type} (D : Nat) (hD : 0 < D) (audio : List α) :
    (chunkAudio D audio).length = (audio.length + D - 1) / D ∧
    (chunkAudio D audio).flatten = audio ∧
    (∀ c ∈ (chunkAudio D audio).dropLast, c.length = D) ∧
    (∀ last, (chunkAudio D audio).getLast? = some last →
      last.length = if audio.length % D = 0 then D else audio.length % D) :=
  ⟨chunkAudio_length D hD audio, chunkAudio_flatten D hD audio,
    chunkAudio_dropLast_length D hD audio, chunkAudio_getLast_length D hD audio⟩

/-- Witness for C1 at D = 2 and a five-sample audio: three chunks
[[0,1],[2,3],[4]], ceil(5/2) = 3, flatten restores the audio, the non-final
chunks have length 2, and the last has length 5 mod 2 = 1. -/
theorem chunk_partition_spec_witness :
    (0 < 2 ∧ (chunkAudio 2 [0, 1, 2, 3, 4]).length = (5 + 2 - 1) / 2) ∧
    (chunkAudio 2 [0, 1, 2, 3, 4]).flatten = [0, 1, 2, 3, 4] ∧
    (∀ c ∈ (chunkAudio 2 [0, 1, 2, 3, 4]).dropLast, c.length = 2) ∧
    (∀ last, (chunkAudio 2 [0, 1, 2, 3, 4]).getLast? = some last →
      last.length = if (5 : Nat) % 2 = 0 then 2 else 5 % 2) := by
  have h := chunk_partition_spec 2 (by decide) [0, 1, 2, 3, 4]
  exact ⟨⟨by decide, h.1⟩, h.2.1, h.2.2.1, h.2.2.2⟩

/-! Per-chunk failure isolation. -/

lemma processChunks_eq {α : Type} (F : Nat → Bool) (ts err : Nat → String)
    (chunks : List (List α)) :
    ∀ k, processChunks (fun i => if F i then Except.error (err i) else Except.ok (ts i))
        k chunks =
      (List.range chunks.length).map (fun j => if F (k + j) then placeholder else ts (k + j)) := by
  induction chunks with
  | nil => intro k; simp [processChunks]
  | cons c cs ih =>
    intro k
    rw [processChunks, List.length_cons, List.range_succ_eq_map, List.map_cons, List.map_map]
    congr 1
    · by_cases hF : F k <;> simp [hF]
    · rw [ih (k + 1)]
      apply List.map_congr_left
      intro j _
      simp only [Function.comp_apply]
      rw [show k + 1 + j = k + (j + 1) by omega]

/-- C2: For every audio split into N chunks and every set F of chunk indices
whose transcription raises, `transcribe_audio_file` returns the
space-separated join, in original chunk order, of N segments where segment i
is the fixed placeholder exactly when F i and the service's transcript for
chunk i otherwise; the segment list always has exactly N entries, so no
failure aborts the run or changes the number or order of segments. -/
theorem failure_isolation_spec {α : Type} (F : Nat → Bool) (ts err : Nat → String)
    (D : Nat) (hD : 0 < D) (audio : List α) :
    transcribe_audio_file (fun i => if F i then Except.error (err i) else Except.ok (ts i))
        D audio =
      String.intercalate " " ((List.range (chunkAudio D audio).length).map
        (fun i => if F i then placeholder else ts i)) ∧
    ((List.range (chunkAudio D audio).length).map
        (fun i => if F i then placeholder else ts i)).length =
      (chunkAudio D audio).length := by
  constructor
  · rw [transcribe_audio_file, processChunks_eq F ts err (chunkAudio D audio) 0]
    simp
  · simp

/-- Witness for C2: one-element chunks over three samples with chunk 1
failing: the transcript is "t0 [Error transcribing this segment] t2" with
three segments in order. -/
theorem failure_isolation_spec_witness :
    transcribe_audio_file
        (fun i => if (i == 1 : Bool) then Except.error "boom" else Except.ok ("t" ++ toString i))
        1 [(), (), ()] =
      String.intercalate " " ((List.range (chunkAudio 1 [(), (), ()]).length).map
        (fun i => if (i == 1 : Bool) then placeholder else "t" ++ toString i)) := by
  have h := failure_isolation_spec (fun i => i == 1) (fun i => "t" ++ toString i)
    (fun _ => "boom") 1 (by decide) [(), (), ()]
  exact h.1

/-- C9: For empty decoded audio, the partitioning loop produces zero chunks,
the per-chunk loop makes no transcription request (the event list that
`mainBody` would emit is empty), and the returned transcript is the empty
string. -/
theorem empty_audio_spec (oracle : Nat → Except String String) (D : Nat) (hD : 0 < D) :
    chunkAudio D ([] : List Unit) = [] ∧
    (List.range (chunkAudio D ([] : List Unit)).length).map Event.transcribeCall = [] ∧
    transcribe_audio_file oracle D ([] : List Unit) = "" := by
  refine ⟨chunkAudio_nil D, ?_, ?_⟩
  · rw [chunkAudio_nil D]
    simp
  · rw [transcribe_audio_file, chunkAudio_nil D]
    rfl

/-- Witness for C9 at the program's actual chunk duration. -/
theorem empty_audio_spec_witness :
    chunkAudio chunk_size_default ([] : List Unit) = [] ∧
    transcribe_audio_file (fun _ => Except.ok "t") chunk_size_default ([] : List Unit) = "" := by
  have h := empty_audio_spec (fun _ => Except.ok "t") chunk_size_default (by decide)
  exact ⟨h.1, h.2.2⟩

/-! Orchestrator-level behaviour. -/

/-- C6: every exception raised inside a run of `main` is caught by the single
top-level handler: the exit status is always 0, a failing body's trace is
extended with exactly one "Exception: "-prefixed log line, and a successful
body's trace is passed through (no raw stack trace ever surfaces). -/
theorem top_level_catch (url : String) (w : World) :
    (main url w).2 = 0 ∧
    (∀ e, (mainBody url w).2 = Except.error e →
      (main url w).1 = (mainBody url w).1 ++ [Event.exceptionLog ("Exception: " ++ e)]) ∧
    (∀ u, (mainBody url w).2 = Except.ok u → (main url w).1 = (mainBody url w).1) := by
  rcases hmb : mainBody url w with ⟨evs, out⟩
  cases out with
  | ok u => refine ⟨?_, ?_, ?_⟩ <;> simp [main, hmb]
  | error e =>
    refine ⟨?_, ?_, ?_⟩ <;> simp [main, hmb]

/-- Witness for C6: with the API key absent the body fails with the
configuration error, and `main` exits 0 after logging it. -/
theorem top_level_catch_witness :
    (main "u" (⟨none, fun _ => none, fun _ => false, fun _ => Except.error "x",
        fun _ => [], fun _ => Except.ok "t"⟩ : World)).2 = 0 ∧
    (main "u" (⟨none, fun _ => none, fun _ => false, fun _ => Except.error "x",
        fun _ => [], fun _ => Except.ok "t"⟩ : World)).1 =
      (mainBody "u" (⟨none, fun _ => none, fun _ => false, fun _ => Except.error "x",
        fun _ => [], fun _ => Except.ok "t"⟩ : World)).1 ++
        [Event.exceptionLog ("Exception: " ++ keyErrorMsg)] :=
  ⟨(top_level_catch "u" _).1, (top_level_catch "u" _).2.1 keyErrorMsg rfl⟩

/-- C8: when DEEPGRAM_API_KEY is absent (or empty, which Python's
`if not key` also treats as missing), `main` raises the configuration error
before any network activity: the body performs no acquisition call and no
transcription call, and the error is logged at top level with exit 0. -/
theorem missing_key_spec (url : String) (w : World)
    (h : w.apiKey = none ∨ w.apiKey = some "") :
    mainBody url w = ([], Except.error keyErrorMsg) ∧
    main url w = ([Event.exceptionLog ("Exception: " ++ keyErrorMsg)], 0) ∧
    ∀ ev ∈ (main url w).1, ev ≠ Event.acquisitionCall ∧ ∀ i, ev ≠ Event.transcribeCall i := by
  have hmb : mainBody url w = ([], Except.error keyErrorMsg) := by
    rcases h with h | h <;> simp [mainBody, h]
  refine ⟨hmb, by simp [main, hmb], ?_⟩
  intro ev hev
  simp [main, hmb] at hev
  subst hev
  simp

/-- Witness for C8: a world with no key yields exactly the logged
configuration error and an empty call trace. -/
theorem missing_key_spec_witness :
    main "u" (⟨none, fun _ => none, fun _ => true, fun _ => Except.ok "T",
        fun _ => [], fun _ => Except.ok "t"⟩ : World) =
      ([Event.exceptionLog ("Exception: " ++ keyErrorMsg)], 0) :=
  (missing_key_spec "u" _ (Or.inl rfl)).2.1

/-- C7: a cache file that exists but does not parse as JSON makes
`get_existing_transcript` raise (the JSONDecodeError propagates out); it is
never treated as a cache miss. -/
theorem malformed_cache_fatal (files : String → Option (List Char)) (vid : String)
    (content : List Char) (hfile : files vid = some content)
    (hbad : parseJson content = none) :
    get_existing_transcript files vid = Except.error jsonDecodeErrorMsg := by
  simp [get_existing_transcript, hfile, hbad]

/-- Witness for C7: the malformed cache content "hello" is a fatal lookup
error for its identifier. -/
theorem malformed_cache_fatal_witness :
    get_existing_transcript (fun _ => some "hello".data) "OHWnPOKh_S0" =
      Except.error jsonDecodeErrorMsg :=
  malformed_cache_fatal (fun _ => some "hello".data) "OHWnPOKh_S0" "hello".data rfl rfl

/-! Lemmas about Python's `str.split` scanning. -/

lemma findSplit_post_length {sep : List Char} (hsep : sep ≠ []) :
    ∀ s pre post, findSplit sep s = some (pre, post) → post.length < s.length := by
  intro s
  induction s with
  | nil => intro pre post h; simp [findSplit] at h
  | cons c cs ih =>
    intro pre post h
    rw [findSplit] at h
    by_cases hp : sep <+: (c :: cs)
    · rw [if_pos hp] at h
      simp only [Option.some.injEq, Prod.mk.injEq] at h
      obtain ⟨h1, h2⟩ := h
      subst h2
      have hl : sep.length ≤ (c :: cs).length := hp.length_le
      have hpos : 0 < sep.length := List.length_pos.mpr hsep
      simp only [List.length_drop]
      omega
    · rw [if_neg hp] at h
      cases hfs : findSplit sep cs with
      | none => rw [hfs] at h; exact absurd h (by simp)
      | some pp =>
        obtain ⟨pre2, post2⟩ := pp
        rw [hfs] at h
        simp only [Option.some.injEq, Prod.mk.injEq] at h
        obtain ⟨h1, h2⟩ := h
        subst h2
        have := ih pre2 post2 hfs
        simp only [List.length_cons]
        omega

lemma pySplitF_fuel_eq {sep : List Char} (hsep : sep ≠ []) :
    ∀ f1 f2 s, s.length < f1 → s.length < f2 → pySplitF sep f1 s = pySplitF sep f2 s := by
  intro f1
  induction f1 with
  | zero => intro f2 s h1 h2; exact absurd h1 (by omega)
  | succ g ih =>
    intro f2 s h1 h2
    cases f2 with
    | zero => exact absurd h2 (by omega)
    | succ g2 =>
      rw [pySplitF, pySplitF]
      cases hfs : findSplit sep s with
      | none => rfl
      | some pp =>
        obtain ⟨pre, post⟩ := pp
        have hlt := findSplit_post_length hsep s pre post hfs
        show pre :: pySplitF sep g post = pre :: pySplitF sep g2 post
        rw [ih g2 post (by omega) (by omega)]

lemma pySplit_eq {sep : List Char} (hsep : sep ≠ []) (s : List Char) :
    pySplit sep s = match findSplit sep s with
      | none => [s]
      | some (pre, post) => pre :: pySplit sep post := by
  show pySplitF sep (s.length + 1) s = _
  rw [pySplitF]
  cases hfs : findSplit sep s with
  | none => rfl
  | some pp =>
    obtain ⟨pre, post⟩ := pp
    have hlt := findSplit_post_length hsep s pre post hfs
    show pre :: pySplitF sep s.length post = pre :: pySplitF sep (post.length + 1) post
    rw [pySplitF_fuel_eq hsep s.length (post.length + 1) post (by omega) (by omega)]

lemma pySplit_ne_nil (sep s : List Char) : pySplit sep s ≠ [] := by
  rw [pySplit]
  cases hf : s.length + 1 with
  | zero => simp [pySplitF]
  | succ g =>
    rw [pySplitF]
    cases findSplit sep s with
    | none => simp
    | some pp => obtain ⟨pre, post⟩ := pp; simp

lemma pySplit_headD {sep : List Char} (hsep : sep ≠ []) (s : List Char) :
    (pySplit sep s).headD [] = takeUntilSeq sep s := by
  rw [pySplit_eq hsep, takeUntilSeq]
  cases findSplit sep s with
  | none => rfl
  | some pp => obtain ⟨pre, post⟩ := pp; rfl

lemma findSplit_append {sep : List Char} (a s : List Char)
    (h : ∀ i, i < a.length → ¬ (sep <+: (a.drop i ++ s))) :
    findSplit sep (a ++ s) = Option.map (fun p => (a ++ p.1, p.2)) (findSplit sep s) := by
  induction a with
  | nil =>
    simp only [List.nil_append]
    cases findSplit sep s with
    | none => rfl
    | some pp => obtain ⟨pre, post⟩ := pp; rfl
  | cons c a2 ih =>
    have h0 : ¬ (sep <+: (c :: (a2 ++ s))) := by
      have := h 0 (by simp)
      simpa using this
    rw [List.cons_append, findSplit, if_neg h0]
    rw [ih (fun i hi => by
      have := h (i + 1) (by simp only [List.length_cons]; omega)
      simpa using this)]
    cases findSplit sep s with
    | none => rfl
    | some pp => obtain ⟨pre, post⟩ := pp; rfl

lemma findSplit_eq_none_of_not_infix {sep : List Char} (s : List Char)
    (h : ¬ (sep <:+: s)) : findSplit sep s = none := by
  induction s with
  | nil => rfl
  | cons c cs ih =>
    have hp : ¬ (sep <+: (c :: cs)) := fun hpp => h hpp.isInfix
    have hcs : ¬ (sep <:+: cs) := fun hin => h (List.infix_cons hin)
    rw [findSplit, if_neg hp, ih hcs]

lemma no_occurrence_vq (a s : List Char)
    (h1 : ¬ (['v', '='] <:+: a))
    (h2 : ¬ (a.getLast? = some 'v' ∧ s.head? = some '=')) :
    ∀ i, i < a.length → ¬ (['v', '='] <+: (a.drop i ++ s)) := by
  intro i hi hp
  have hdlen : 0 < (a.drop i).length := by
    simp only [List.length_drop]
    omega
  cases hd : a.drop i with
  | nil => rw [hd] at hdlen; simp at hdlen
  | cons x d2 =>
    cases d2 with
    | nil =>
      rw [hd] at hp
      obtain ⟨t2, ht⟩ := hp
      injection ht with hx ht2
      have hs2 : '=' :: t2 = s := by simpa using ht2
      have hs : s.head? = some '=' := by
        rw [← hs2]
        rfl
      have hal : a.getLast? = some x := by
        have htd : a.take i ++ a.drop i = a := List.take_append_drop i a
        rw [hd] at htd
        rw [← htd]
        exact List.getLast?_concat _
      exact h2 ⟨by rw [hal, ← hx], hs⟩
    | cons y d3 =>
      rw [hd] at hp
      obtain ⟨t2, ht⟩ := hp
      injection ht with hx ht2
      injection ht2 with hy ht3
      have hinf : ['v', '='] <:+: a := by
        obtain ⟨u, hu⟩ := List.drop_suffix i a
        refine ⟨u, d3, ?_⟩
        rw [← hu, hd, ← hx, ← hy]
        simp
      exact h1 hinf

lemma no_occurrence_amp (a s : List Char) (h : '&' ∉ a) :
    ∀ i, i < a.length → ¬ (['&'] <+: (a.drop i ++ s)) := by
  intro i hi hp
  have hdlen : 0 < (a.drop i).length := by
    simp only [List.length_drop]
    omega
  cases hd : a.drop i with
  | nil => rw [hd] at hdlen; simp at hdlen
  | cons x d2 =>
    rw [hd] at hp
    obtain ⟨t2, ht⟩ := hp
    injection ht with hx _
    apply h
    have hmem : x ∈ a.drop i := by rw [hd]; exact List.mem_cons_self x d2
    rw [← hx] at hmem
    exact List.mem_of_mem_drop hmem

lemma not_infix_concat (t : List Char) (c : Char) (h1 : ¬ (['v', '='] <:+: t))
    (h2 : c ≠ '=') : ¬ (['v', '='] <:+: (t ++ [c])) := by
  intro hinf
  obtain ⟨u, w, huw⟩ := hinf
  rcases List.eq_nil_or_concat w with hw | ⟨w2, x, hw⟩
  · subst hw
    have hlast : (t ++ [c]).getLast? = some c := List.getLast?_concat t
    rw [← huw] at hlast
    have hre : (u ++ ['v', '='] ++ []) = (u ++ ['v']) ++ ['='] := by simp
    rw [hre, List.getLast?_concat] at hlast
    exact h2 (by injection hlast with hh; exact hh.symm)
  · rw [hw, List.concat_eq_append] at huw
    have hre : (u ++ ['v', '='] ++ w2) ++ [x] = t ++ [c] := by
      rw [← huw]
      simp
    obtain ⟨hteq, _⟩ := List.append_inj' hre rfl
    exact h1 ⟨u, w2, hteq⟩

lemma findSplit_at_boundary (p rest : List Char) (hp : ¬ (['v', '='] <:+: p)) :
    findSplit ['v', '='] (p ++ 'v' :: '=' :: rest) = some (p, rest) := by
  rw [show p ++ 'v' :: '=' :: rest = p ++ ('v' :: '=' :: rest) from rfl,
    findSplit_append p ('v' :: '=' :: rest) (no_occurrence_vq p _ hp (by simp))]
  rw [findSplit, if_pos ⟨rest, rfl⟩]
  simp

lemma findSplit_amp_boundary (t rest : List Char) (ht : '&' ∉ t) :
    findSplit ['&'] (t ++ '&' :: rest) = some (t, rest) := by
  rw [show t ++ '&' :: rest = t ++ ('&' :: rest) from rfl,
    findSplit_append t ('&' :: rest) (no_occurrence_amp t _ ht)]
  rw [findSplit, if_pos ⟨rest, rfl⟩]
  simp

/-- C5: for a URL of the query-parameter shape
`<prefix> ++ "v=" ++ <token> ++ "&" ++ <trailing>` — with "v=" not occurring
earlier and the token free of '&' and of any embedded "v=" (as in
`...watch?v=ABC123&pp=xyz`) — the extraction expression
`url.split("v=")[1].split("&")[0]` returns exactly the token. -/
theorem extract_url_shape (p t r : List Char)
    (hp : ¬ (['v', '='] <:+: p)) (ht1 : ¬ (['v', '='] <:+: t)) (ht2 : '&' ∉ t) :
    pyExtractVideoId (String.mk (p ++ 'v' :: '=' :: (t ++ '&' :: r))) = some (String.mk t) := by
  have hsep : (['v', '='] : List Char) ≠ [] := by simp
  have h1 : findSplit ['v', '='] (p ++ 'v' :: '=' :: (t ++ '&' :: r)) =
      some (p, t ++ '&' :: r) := findSplit_at_boundary p _ hp
  have h2 : pySplit ['v', '='] (p ++ 'v' :: '=' :: (t ++ '&' :: r)) =
      p :: pySplit ['v', '='] (t ++ '&' :: r) := by
    rw [pySplit_eq hsep, h1]
  have h3 : ∃ w, takeUntilSeq ['v', '='] (t ++ '&' :: r) = (t ++ ['&']) ++ w := by
    have hocc := no_occurrence_vq (t ++ ['&']) r
      (not_infix_concat t '&' ht1 (by decide))
      (by simp [List.getLast?_concat])
    have happ := findSplit_append (t ++ ['&']) r hocc
    rw [takeUntilSeq, show t ++ '&' :: r = (t ++ ['&']) ++ r by simp, happ]
    cases findSplit ['v', '='] r with
    | none => exact ⟨r, rfl⟩
    | some q => exact ⟨q.1, rfl⟩
  obtain ⟨w, hw⟩ := h3
  obtain ⟨hd, tl, hcons⟩ : ∃ hd tl, pySplit ['v', '='] (t ++ '&' :: r) = hd :: tl := by
    cases hps : pySplit ['v', '='] (t ++ '&' :: r) with
    | nil => exact absurd hps (pySplit_ne_nil _ _)
    | cons x xs => exact ⟨x, xs, rfl⟩
  have hhd : hd = (t ++ ['&']) ++ w := by
    have hh := pySplit_headD hsep (t ++ '&' :: r)
    rw [hcons, hw] at hh
    exact hh
  unfold pyExtractVideoId
  have hdata : (String.mk (p ++ 'v' :: '=' :: (t ++ '&' :: r))).data =
      p ++ 'v' :: '=' :: (t ++ '&' :: r) := rfl
  rw [hdata, h2, hcons]
  show some (String.mk ((pySplit ['&'] hd).headD [])) = some (String.mk t)
  have h4 : (pySplit ['&'] hd).headD [] = t := by
    have hamp : (['&'] : List Char) ≠ [] := by simp
    rw [hhd, pySplit_headD hamp, takeUntilSeq,
      show (t ++ ['&']) ++ w = t ++ '&' :: w by simp, findSplit_amp_boundary t w ht2]
  rw [h4]

/-- Witness for C5 at the spec's own example URL. -/
theorem extract_url_shape_witness :
    pyExtractVideoId "https://www.youtube.com/watch?v=ABC123&pp=xyz" = some "ABC123" := by
  have h := extract_url_shape "https://www.youtube.com/watch?".data "ABC123".data "pp=xyz".data
    (by decide) (by decide) (by decide)
  have heq : String.mk ("https://www.youtube.com/watch?".data ++
      'v' :: '=' :: ("ABC123".data ++ '&' :: "pp=xyz".data)) =
      "https://www.youtube.com/watch?v=ABC123&pp=xyz" := by decide
  rw [heq, show String.mk "ABC123".data = "ABC123" from rfl] at h
  exact h

/-- Counterexample to C10 as stated: for url "v=av=b&c" the substring
between the first "v=" and the next '&' is "av=b", but the code's
`split("v=")[1]` cuts at the second "v=" first, so extraction returns "a". -/
theorem extract_counterexample :
    pyExtractVideoId "v=av=b&c" = some "a" ∧ pyExtractVideoId "v=av=b&c" ≠ some "av=b" := by
  refine ⟨by decide, by decide⟩

/-- C10 (amended): extraction is partial — without "v=" in the URL the
expression raises IndexError (`none` here); and when the URL splits as
`p ++ "v=" ++ rest` at the first occurrence of "v=", extraction succeeds and
returns `rest` truncated at the next occurrence of "v=" (if any) and then at
the first "&" (if any). -/
theorem extract_partial_amended (url : String) :
    (¬ (['v', '='] <:+: url.data) → pyExtractVideoId url = none) ∧
    (∀ p rest, url.data = p ++ 'v' :: '=' :: rest → ¬ (['v', '='] <:+: p) →
      pyExtractVideoId url =
        some (String.mk (takeUntilSeq ['&'] (takeUntilSeq ['v', '='] rest)))) := by
  have hsep : (['v', '='] : List Char) ≠ [] := by simp
  constructor
  · intro h
    have hn : findSplit ['v', '='] url.data = none := findSplit_eq_none_of_not_infix _ h
    have h2 : pySplit ['v', '='] url.data = [url.data] := by
      rw [pySplit_eq hsep, hn]
    unfold pyExtractVideoId
    rw [h2]
  · intro p rest hurl hp
    have h1 : findSplit ['v', '='] url.data = some (p, rest) := by
      rw [hurl]
      exact findSplit_at_boundary p rest hp
    have h2 : pySplit ['v', '='] url.data = p :: pySplit ['v', '='] rest := by
      rw [pySplit_eq hsep, h1]
    obtain ⟨hd, tl, hcons⟩ : ∃ hd tl, pySplit ['v', '='] rest = hd :: tl := by
      cases hps : pySplit ['v', '='] rest with
      | nil => exact absurd hps (pySplit_ne_nil _ _)
      | cons x xs => exact ⟨x, xs, rfl⟩
    have hhd : hd = takeUntilSeq ['v', '='] rest := by
      have hh := pySplit_headD hsep rest
      rw [hcons] at hh
      exact hh
    unfold pyExtractVideoId
    rw [h2, hcons]
    show some (String.mk ((pySplit ['&'] hd).headD [])) = _
    rw [pySplit_headD (by simp : (['&'] : List Char) ≠ []), hhd]

/-- Witness for C10 (amended) at the counterexample's URL: the amended
formula evaluates to "a", matching the code. -/
theorem extract_partial_amended_witness :
    pyExtractVideoId "v=av=b&c" =
      some (String.mk (takeUntilSeq ['&'] (takeUntilSeq ['v', '='] "av=b&c".data))) :=
  (extract_partial_amended "v=av=b&c").2 [] "av=b&c".data (by decide) (by decide)

/-! The JSON round trip: parsing back what `save_transcript` writes. -/

lemma hexVal_hexDigitChar (n : Nat) (h : n < 16) : hexVal (hexDigitChar n) = some n := by
  interval_cases n <;> decide

lemma parseBodyF_fuel_eq :
    ∀ f1 f2 s, s.length < f1 → s.length < f2 → parseBodyF f1 s = parseBodyF f2 s := by
  intro f1
  induction f1 with
  | zero => intro f2 s h1 h2; exact absurd h1 (by omega)
  | succ g ih =>
    intro f2 s h1 h2
    cases f2 with
    | zero => exact absurd h2 (by omega)
    | succ g2 =>
      cases s with
      | nil => rfl
      | cons c rest =>
        rw [parseBodyF, parseBodyF]
        by_cases hq : c = '"'
        · rw [if_pos hq, if_pos hq]
        rw [if_neg hq, if_neg hq]
        by_cases hb : c = '\\'
        · rw [if_pos hb, if_pos hb]
          cases hde : decodeEscape rest with
          | none => rfl
          | some p =>
            obtain ⟨ch, k⟩ := p
            show consFst ch (parseBodyF g (rest.drop k)) =
              consFst ch (parseBodyF g2 (rest.drop k))
            rw [ih g2 (rest.drop k)
              (by simp only [List.length_drop]; simp only [List.length_cons] at h1; omega)
              (by simp only [List.length_drop]; simp only [List.length_cons] at h2; omega)]
        rw [if_neg hb, if_neg hb]
        by_cases hc : c.toNat < 32
        · rw [if_pos hc, if_pos hc]
        rw [if_neg hc, if_neg hc]
        show consFst c (parseBodyF g rest) = consFst c (parseBodyF g2 rest)
        rw [ih g2 rest
          (by simp only [List.length_cons] at h1; omega)
          (by simp only [List.length_cons] at h2; omega)]

lemma parseBodyF_eq_body (f : Nat) (s : List Char) (h : s.length < f) :
    parseBodyF f s = parseJsonStringBody s :=
  parseBodyF_fuel_eq f (s.length + 1) s h (by omega)

lemma parseBody_step (c : Char) (rest : List Char) :
    parseJsonStringBody (c :: rest) =
      if c = '"' then some ([], rest)
      else if c = '\\' then
        match decodeEscape rest with
        | some (ch, k) => consFst ch (parseJsonStringBody (rest.drop k))
        | none => none
      else if c.toNat < 32 then none
      else consFst c (parseJsonStringBody rest) := by
  show parseBodyF (rest.length + 1 + 1) (c :: rest) = _
  rw [parseBodyF]
  by_cases hq : c = '"'
  · rw [if_pos hq, if_pos hq]
  rw [if_neg hq, if_neg hq]
  by_cases hb : c = '\\'
  · rw [if_pos hb, if_pos hb]
    cases hde : decodeEscape rest with
    | none => rfl
    | some p =>
      obtain ⟨ch, k⟩ := p
      show consFst ch (parseBodyF (rest.length + 1) (rest.drop k)) =
        consFst ch (parseJsonStringBody (rest.drop k))
      rw [parseBodyF_eq_body _ _ (by simp only [List.length_drop]; omega)]
  rw [if_neg hb, if_neg hb]
  by_cases hc : c.toNat < 32
  · rw [if_pos hc, if_pos hc]
  rw [if_neg hc, if_neg hc]
  show consFst c (parseBodyF (rest.length + 1) rest) = consFst c (parseJsonStringBody rest)
  rw [parseBodyF_eq_body _ _ (by omega)]

lemma decodeEscape_u00 (n : Nat) (h : n < 32) (r : List Char) :
    decodeEscape ('u' :: '0' :: '0' :: hexDigitChar (n / 16) :: hexDigitChar (n % 16) :: r) =
      some (Char.ofNat n, 5) := by
  interval_cases n <;> rfl

lemma parseBody_escUnit (c : Char) (tail : List Char) :
    parseJsonStringBody (escapeChar c ++ tail) = consFst c (parseJsonStringBody tail) := by
  by_cases h1 : c = '"'
  · subst h1
    show parseJsonStringBody ('\\' :: '"' :: tail) = _
    rw [parseBody_step, if_neg (by decide), if_pos rfl]
    rfl
  by_cases h2 : c = '\\'
  · subst h2
    show parseJsonStringBody ('\\' :: '\\' :: tail) = _
    rw [parseBody_step, if_neg (by decide), if_pos rfl]
    rfl
  by_cases h3 : c = '\n'
  · subst h3
    show parseJsonStringBody ('\\' :: 'n' :: tail) = _
    rw [parseBody_step, if_neg (by decide), if_pos rfl]
    rfl
  by_cases h4 : c = '\r'
  · subst h4
    show parseJsonStringBody ('\\' :: 'r' :: tail) = _
    rw [parseBody_step, if_neg (by decide), if_pos rfl]
    rfl
  by_cases h5 : c = '\t'
  · subst h5
    show parseJsonStringBody ('\\' :: 't' :: tail) = _
    rw [parseBody_step, if_neg (by decide), if_pos rfl]
    rfl
  by_cases h6 : c.toNat = 8
  · have hc : c = Char.ofNat 8 := by rw [← h6, Char.ofNat_toNat]
    subst hc
    show parseJsonStringBody ('\\' :: 'b' :: tail) = _
    rw [parseBody_step, if_neg (by decide), if_pos rfl]
    rfl
  by_cases h7 : c.toNat = 12
  · have hc : c = Char.ofNat 12 := by rw [← h7, Char.ofNat_toNat]
    subst hc
    show parseJsonStringBody ('\\' :: 'f' :: tail) = _
    rw [parseBody_step, if_neg (by decide), if_pos rfl]
    rfl
  by_cases h8 : c.toNat < 32
  · have hesc : escapeChar c =
        ['\\', 'u', '0', '0', hexDigitChar (c.toNat / 16), hexDigitChar (c.toNat % 16)] := by
      simp only [escapeChar]
      rw [if_neg h1, if_neg h2, if_neg h3, if_neg h4, if_neg h5, if_neg h6, if_neg h7,
        if_pos h8]
    rw [hesc]
    show parseJsonStringBody
      ('\\' :: 'u' :: '0' :: '0' :: hexDigitChar (c.toNat / 16) ::
        hexDigitChar (c.toNat % 16) :: tail) = _
    rw [parseBody_step, if_neg (by decide), if_pos rfl, decodeEscape_u00 c.toNat h8 tail]
    show consFst (Char.ofNat c.toNat) (parseJsonStringBody tail) = _
    rw [Char.ofNat_toNat]
  · have hesc : escapeChar c = [c] := by
      simp only [escapeChar]
      rw [if_neg h1, if_neg h2, if_neg h3, if_neg h4, if_neg h5, if_neg h6, if_neg h7,
        if_neg h8]
    rw [hesc]
    show parseJsonStringBody (c :: tail) = _
    rw [parseBody_step, if_neg h1, if_neg h2, if_neg h8]

lemma parseBody_escString (s : List Char) (rest : List Char) :
    parseJsonStringBody (escString s ++ '"' :: rest) = some (s, rest) := by
  induction s with
  | nil => rfl
  | cons c s2 ih =>
    have hesc : escString (c :: s2) = escapeChar c ++ escString s2 := by
      simp [escString]
    rw [hesc, List.append_assoc, parseBody_escUnit, ih]
    rfl

lemma parseJsonString_quoted (s rest : List Char) :
    parseJsonString ('"' :: (escString s ++ '"' :: rest)) = some (s, rest) := by
  show parseJsonStringBody (escString s ++ '"' :: rest) = _
  exact parseBody_escString s rest

lemma parseValueF_str (f : Nat) (s rest : List Char) :
    parseValueF (f + 1) ('"' :: (escString s ++ '"' :: rest)) =
      some (JsonValue.str s, rest) := by
  rw [parseValueF, if_pos rfl, parseBody_escString]

lemma parseMembersF_member (f : Nat) (k v rest : List Char) :
    parseMembersF (f + 1 + 1)
        ('"' :: (escString k ++ '"' :: ':' :: ' ' :: ('"' :: (escString v ++ '"' :: rest)))) =
      match skipWs rest with
      | [] => none
      | c :: r4 =>
        if c = ',' then
          match parseMembersF (f + 1) (skipWs r4) with
          | some (ms, rest2) => some ((k, JsonValue.str v) :: ms, rest2)
          | none => none
        else if c = rbrace then some ([(k, JsonValue.str v)], r4)
        else none := by
  have w1 : skipWs (':' :: ' ' :: ('"' :: (escString v ++ '"' :: rest))) =
      ':' :: ' ' :: ('"' :: (escString v ++ '"' :: rest)) := by
    simp [skipWs, isJsonWs]
  have w2 : skipWs (' ' :: ('"' :: (escString v ++ '"' :: rest))) =
      '"' :: (escString v ++ '"' :: rest) := by
    simp [skipWs, isJsonWs]
  rw [parseMembersF]
  rw [show ('"' :: (escString k ++ '"' :: ':' :: ' ' :: ('"' :: (escString v ++ '"' :: rest)))) =
    ('"' :: (escString k ++ '"' :: (':' :: ' ' :: ('"' :: (escString v ++ '"' :: rest)))))
    from rfl]
  rw [parseJsonString_quoted k (':' :: ' ' :: ('"' :: (escString v ++ '"' :: rest)))]
  simp only [w1, w2, parseValueF_str f v rest, if_pos]

lemma parseMembersF_member_comma (f : Nat) (k v rest : List Char) :
    parseMembersF (f + 1 + 1)
        ('"' :: (escString k ++ '"' :: ':' :: ' ' :: ('"' :: (escString v ++ '"' ::
          (',' :: '\n' :: ' ' :: ' ' :: '"' :: rest))))) =
      match parseMembersF (f + 1) ('"' :: rest) with
      | some (ms, rest2) => some ((k, JsonValue.str v) :: ms, rest2)
      | none => none := by
  rw [parseMembersF_member]
  rw [show skipWs (',' :: '\n' :: ' ' :: ' ' :: '"' :: rest) =
    ',' :: '\n' :: ' ' :: ' ' :: '"' :: rest from by simp [skipWs, isJsonWs]]
  show (if (',' : Char) = ',' then
      match parseMembersF (f + 1) (skipWs ('\n' :: ' ' :: ' ' :: '"' :: rest)) with
      | some (ms, rest2) => some ((k, JsonValue.str v) :: ms, rest2)
      | none => none
    else if (',' : Char) = rbrace then
      some ([(k, JsonValue.str v)], '\n' :: ' ' :: ' ' :: '"' :: rest)
    else none) = _
  rw [if_pos rfl]
  rw [show skipWs ('\n' :: ' ' :: ' ' :: '"' :: rest) = '"' :: rest from by
    simp [skipWs, isJsonWs]]

lemma parseMembersF_member_last (f : Nat) (k v : List Char) :
    parseMembersF (f + 1 + 1)
        ('"' :: (escString k ++ '"' :: ':' :: ' ' :: ('"' :: (escString v ++ '"' ::
          ('\n' :: rbrace :: []))))) = some ([(k, JsonValue.str v)], []) := by
  rw [parseMembersF_member]
  rw [show skipWs ('\n' :: rbrace :: []) = rbrace :: [] from by
    simp [skipWs, isJsonWs, rbrace, Char.ofNat]]
  show (if rbrace = ',' then
      match parseMembersF (f + 1) (skipWs []) with
      | some (ms, rest2) => some ((k, JsonValue.str v) :: ms, rest2)
      | none => none
    else if rbrace = rbrace then some ([(k, JsonValue.str v)], [])
    else none) = _
  rw [if_neg (by decide), if_pos rfl]

/-- The member list of a dumped record between the braces, in the exact
shape produced by `dumpRecord`. -/
def memberChain (a b c : List Char) : List Char :=
  '"' :: (escString "video_id".data ++ '"' :: ':' :: ' ' ::
    ('"' :: (escString a ++ '"' ::
      (',' :: '\n' :: ' ' :: ' ' :: '"' :: (escString "video_title".data ++ '"' :: ':' :: ' ' ::
        ('"' :: (escString b ++ '"' ::
          (',' :: '\n' :: ' ' :: ' ' :: '"' :: (escString "transcript".data ++ '"' :: ':' :: ' ' ::
            ('"' :: (escString c ++ '"' ::
              ('\n' :: rbrace :: []))))))))))))

lemma parseMembersF_members3 (g : Nat) (a b c : List Char) :
    parseMembersF (g + 1 + 1 + 1 + 1) (memberChain a b c) =
      some ([("video_id".data, JsonValue.str a), ("video_title".data, JsonValue.str b),
        ("transcript".data, JsonValue.str c)], []) := by
  rw [memberChain]
  rw [parseMembersF_member_comma, parseMembersF_member_comma, parseMembersF_member_last]

lemma dumpRecord_shape (r : TranscriptRecord) :
    dumpRecord r = lbrace :: '\n' :: ' ' :: ' ' ::
      memberChain r.video_id.data r.video_title.data r.transcript.data := by
  simp [dumpRecord, memberChain, encodeJsonString, List.cons_append, List.append_assoc,
    List.nil_append]

lemma memberChain_length_ge (a b c : List Char) : 2 ≤ (memberChain a b c).length := by
  simp only [memberChain, List.length_cons, List.length_append]
  omega

lemma parseValueF_dump (f : Nat) (a b c : List Char) :
    parseValueF (f + 1) (lbrace :: '\n' :: ' ' :: ' ' :: memberChain a b c) =
      match parseMembersF f (memberChain a b c) with
      | some (ms, r3) => some (JsonValue.obj ms, r3)
      | none => none := by
  have w1 : skipWs ('\n' :: ' ' :: ' ' :: memberChain a b c) = memberChain a b c := by
    simp [skipWs, isJsonWs, memberChain]
  rw [parseValueF]
  rw [if_neg (by decide), if_pos rfl]
  show (match skipWs ('\n' :: ' ' :: ' ' :: memberChain a b c) with
    | [] => none
    | c2 :: r2 =>
      if c2 = rbrace then some (JsonValue.obj [], r2)
      else
        match parseMembersF f (c2 :: r2) with
        | some (ms, r3) => some (JsonValue.obj ms, r3)
        | none => none) = _
  rw [w1]
  show (match parseMembersF f (memberChain a b c) with
    | some (ms, r3) => some (JsonValue.obj ms, r3)
    | none => none) = _
  rfl

lemma parseJson_dump (r : TranscriptRecord) :
    parseJson (dumpRecord r) =
      some (JsonValue.obj [("video_id".data, JsonValue.str r.video_id.data),
        ("video_title".data, JsonValue.str r.video_title.data),
        ("transcript".data, JsonValue.str r.transcript.data)]) := by
  have hws : isJsonWs lbrace = false := by decide
  rw [parseJson, dumpRecord_shape]
  rw [show skipWs (lbrace :: '\n' :: ' ' :: ' ' ::
      memberChain r.video_id.data r.video_title.data r.transcript.data) =
    lbrace :: '\n' :: ' ' :: ' ' ::
      memberChain r.video_id.data r.video_title.data r.transcript.data from by
    simp [skipWs, hws]]
  rw [show 2 * (lbrace :: '\n' :: ' ' :: ' ' ::
      memberChain r.video_id.data r.video_title.data r.transcript.data).length + 1 =
    (2 * (lbrace :: '\n' :: ' ' :: ' ' ::
      memberChain r.video_id.data r.video_title.data r.transcript.data).length - 3) +
      1 + 1 + 1 + 1 from by simp only [List.length_cons]; omega]
  rw [parseValueF_dump, parseMembersF_members3]
  rfl

/-- C4: saving a transcript record with `save_transcript` and loading it back
with `get_existing_transcript` for the same identifier returns the parsed
JSON object whose three members ("video_id", "video_title", "transcript")
are exactly the values saved — for every identifier, title, and transcript
text, non-ASCII and control characters included (the JSON serialization
round-trips every Lean string); subscripting the loaded value by each of the
three keys returns the saved strings. -/
theorem save_load_roundtrip (files : String → Option (List Char))
    (text video_id video_title : String) :
    get_existing_transcript (save_transcript files text video_id video_title) video_id =
      Except.ok (some (JsonValue.obj [("video_id".data, JsonValue.str video_id.data),
        ("video_title".data, JsonValue.str video_title.data),
        ("transcript".data, JsonValue.str text.data)])) ∧
    getItem (JsonValue.obj [("video_id".data, JsonValue.str video_id.data),
        ("video_title".data, JsonValue.str video_title.data),
        ("transcript".data, JsonValue.str text.data)]) "video_id".data =
      Except.ok (JsonValue.str video_id.data) ∧
    getItem (JsonValue.obj [("video_id".data, JsonValue.str video_id.data),
        ("video_title".data, JsonValue.str video_title.data),
        ("transcript".data, JsonValue.str text.data)]) "video_title".data =
      Except.ok (JsonValue.str video_title.data) ∧
    getItem (JsonValue.obj [("video_id".data, JsonValue.str video_id.data),
        ("video_title".data, JsonValue.str video_title.data),
        ("transcript".data, JsonValue.str text.data)]) "transcript".data =
      Except.ok (JsonValue.str text.data) := by
  refine ⟨?_, rfl, rfl, rfl⟩
  unfold get_existing_transcript save_transcript
  rw [if_pos rfl]
  show (match parseJson (dumpRecord ⟨video_id, video_title, text⟩) with
    | some v => Except.ok (some v)
    | none => Except.error jsonDecodeErrorMsg) = _
  rw [parseJson_dump]

/-- A world whose transcript cache for the hard-coded video holds the valid
but falsy JSON text consisting of the two braces (an empty object): the API
key is set, no downloaded audio exists, the download succeeds, the decoded
audio has one sample, and transcription succeeds. -/
def falsyCacheWorld : World where
  apiKey := some "KEY"
  transcriptFiles := fun _ => some [lbrace, rbrace]
  audioFiles := fun _ => false
  downloadResult := fun _ => Except.ok "TITLE"
  audioData := fun _ => [()]
  chunkResult := fun _ => Except.ok "hi"

/-- Counterexample to C3 as stated: for the hard-coded identifier a
transcript cache file exists (holding the empty JSON object, which
`json.load` parses successfully), yet the run calls both the acquisition
service and the transcription service, because `if existing_transcript:`
is false for a falsy loaded value and the full pipeline runs. -/
theorem cache_hit_counterexample :
    falsyCacheWorld.transcriptFiles "OHWnPOKh_S0" = some [lbrace, rbrace] ∧
    parseJson [lbrace, rbrace] = some (JsonValue.obj []) ∧
    Event.acquisitionCall ∈ (main youtube_url falsyCacheWorld).1 ∧
    Event.transcribeCall 0 ∈ (main youtube_url falsyCacheWorld).1 := by
  have hvid : pyExtractVideoId youtube_url = some "OHWnPOKh_S0" := by decide
  have hparse : parseJson [lbrace, rbrace] = some (JsonValue.obj []) := rfl
  have hchunks : chunkAudio chunk_size_default [()] = [[()]] := by
    rw [chunkAudio_cons chunk_size_default (by decide) () []]
    rw [show ([()] : List Unit).drop chunk_size_default = [] from rfl, chunkAudio_nil]
    rfl
  refine ⟨rfl, hparse, ?_, ?_⟩ <;>
    simp [main, mainBody, runPipeline, download_youtube_audio, get_existing_transcript,
      hvid, hparse, hchunks, falsyCacheWorld, jsonTruthy, List.range_succ]

/-- C3 (amended): when the cache file for the run's identifier holds JSON
that parses to a truthy value — in particular any transcript record this
program saves — the run performs no acquisition call and no transcription
call, and (with a valid key, when the loaded value has a "transcript" item)
the only output is byte-identical to that stored item.  A cache file whose
valid JSON is falsy (such as an empty object) is instead treated as a cache
miss and the full pipeline runs, as the counterexample shows. -/
theorem cache_hit_amended (url vid : String) (w : World) (content : List Char) (v : JsonValue)
    (hvid : pyExtractVideoId url = some vid)
    (hfile : w.transcriptFiles vid = some content)
    (hparse : parseJson content = some v)
    (htruthy : jsonTruthy v = true) :
    (∀ ev ∈ (main url w).1, ev ≠ Event.acquisitionCall ∧ ∀ i, ev ≠ Event.transcribeCall i) ∧
    (∀ tv, getItem v "transcript".data = Except.ok tv →
      ∀ k, w.apiKey = some k → k ≠ "" → (main url w).1 = [Event.output tv]) := by
  have hget : get_existing_transcript w.transcriptFiles vid = Except.ok (some v) := by
    simp [get_existing_transcript, hfile, hparse]
  constructor
  · intro ev hev
    cases hkey : w.apiKey with
    | none =>
      simp [main, mainBody, hkey] at hev
      subst hev
      simp
    | some k =>
      by_cases hk : k = ""
      · simp [main, mainBody, hkey, hk] at hev
        subst hev
        simp
      · cases hitem : getItem v "transcript".data with
        | ok tv =>
          simp [main, mainBody, hkey, hk, hvid, hget, htruthy, hitem] at hev
          subst hev
          simp
        | error e =>
          simp [main, mainBody, hkey, hk, hvid, hget, htruthy, hitem] at hev
          subst hev
          simp
  · intro tv hitem k hkey hk
    simp [main, mainBody, hkey, hk, hvid, hget, htruthy, hitem]

/-- Witness for C3 (amended): a world whose cache holds a saved record for
"abc" outputs exactly that record's stored transcript text, with no service
calls. -/
theorem cache_hit_amended_witness :
    (main "https://www.youtube.com/watch?v=abc&x=1"
      (⟨some "KEY", fun id => if id = "abc" then some (dumpRecord ⟨"abc", "T", "hello"⟩) else none,
        fun _ => false, fun _ => Except.error "net", fun _ => [],
        fun _ => Except.error "down"⟩ : World)).1 =
      [Event.output (JsonValue.str "hello".data)] :=
  (cache_hit_amended "https://www.youtube.com/watch?v=abc&x=1" "abc" _
      (dumpRecord ⟨"abc", "T", "hello"⟩)
      (JsonValue.obj [("video_id".data, JsonValue.str "abc".data),
        ("video_title".data, JsonValue.str "T".data),
        ("transcript".data, JsonValue.str "hello".data)])
      (by decide) rfl (parseJson_dump ⟨"abc", "T", "hello"⟩) rfl).2
    (JsonValue.str "hello".data) rfl "KEY" rfl (by decide)

end Transcribe
